import Mathlib

/-!
Shallow embedding of the expense tracker (src/expense_tracker.py) in Lean 4,
together with proofs checking the natural-language specification against it.

Modelling conventions:
* Python `float` values are modelled exactly.  A finite value is an exact
  decimal `num / 10 ^ exp` (`Dec` below); the special values produced by
  `float("inf")`, `float("-inf")`, `float("nan")` are separate constructors of
  `PyFloat`.  Rounding of decimal literals to IEEE-754 doubles, and
  overflow/underflow of literals with extreme exponents, are not modelled:
  within the modelled range a literal denotes its exact decimal value.
* Strings are Lean `String`s; character classes (digits, whitespace, upper
  case) are taken from ASCII.  CPython additionally accepts non-ASCII Unicode
  digits and whitespace in `float`, `int` and `str.strip`; those inputs are
  outside this model.
* Printing is not modelled; every operation returns the data that the Python
  function appends to its result or prints as its outcome.
* The data file is modelled by `FileContent`: it is absent, unreadable or
  undecodable (`corrupt`), or holds a decoded list of records.  `json.dump` /
  `json.load` round-trip a list of records, so a well-formed file is modelled
  directly by the list it decodes to.  I/O failure of `save_data` is not
  modelled (a save always succeeds and overwrites the file).
-/

namespace ExpenseTrackerModel

/-! ### Characters, whitespace, case -/

/-- ASCII whitespace, the characters stripped by `str.strip()` and skipped by
`float()` (the ASCII fragment of Python's notion of whitespace). -/
def isPySpace (c : Char) : Bool :=
  c == ' ' || c == '\t' || c == '\n' || c == '\r' || c == '\x0b' || c == '\x0c'

/-- Lower-case a single character, ASCII fragment of `str.lower()`. -/
def pyLowerChar (c : Char) : Char :=
  if 'A' ≤ c ∧ c ≤ 'Z' then Char.ofNat (c.toNat + 32) else c

/-- Model of `str.lower()` (ASCII fragment). -/
def pyLower (s : String) : String :=
  ⟨s.data.map pyLowerChar⟩

/-- Strip `isPySpace` characters from both ends of a character list. -/
def pyStripChars (l : List Char) : List Char :=
  ((l.dropWhile isPySpace).reverse.dropWhile isPySpace).reverse

/-- Model of `str.strip()` (ASCII fragment), as used on `note` and `category`
in `add_expense` / `update_expense`. -/
def pyStrip (s : String) : String :=
  ⟨pyStripChars s.data⟩

/-- Numeric value of a decimal digit character. -/
def dval (c : Char) : Nat := c.toNat - 48

/-- Value of a list of decimal digit characters, most significant first. -/
def digitsVal (l : List Char) : Nat :=
  l.foldl (fun n c => 10 * n + dval c) 0

/-! ### Python float values -/

/-- Exact decimal number `num / 10 ^ exp`.  This represents the value a finite
Python float literal denotes (IEEE rounding is not modelled, see the header
comment).  The representation is not canonical; all theorems compare values
produced by the modelled code itself. -/
structure Dec where
  num : Int
  exp : Nat
deriving DecidableEq

/-- Rational value of a `Dec` (for specification statements only). -/
def Dec.toRat (d : Dec) : ℚ := (d.num : ℚ) / (10 : ℚ) ^ d.exp

/-- Result of a successful Python `float(...)` conversion: a finite decimal
value or one of the special values `inf`, `-inf`, `nan`. -/
inductive PyFloat where
  | finite (d : Dec)
  | inf
  | negInf
  | nan
deriving DecidableEq

/-- The float `0.0`, the start value of `sum` and of `dict.get(key, 0)`. -/
def pyZero : PyFloat := .finite ⟨0, 0⟩

/-- Python float addition (`+` / `sum`), on the modelled values. -/
def pyAdd : PyFloat → PyFloat → PyFloat
  | .finite a, .finite b => .finite ⟨a.num * (10 : Int) ^ b.exp + b.num * (10 : Int) ^ a.exp, a.exp + b.exp⟩
  | .nan, _ => .nan
  | _, .nan => .nan
  | .inf, .negInf => .nan
  | .negInf, .inf => .nan
  | .inf, _ => .inf
  | _, .inf => .inf
  | .negInf, _ => .negInf
  | _, .negInf => .negInf

/-- Python comparison `v <= 0` on a float value (`False` on `nan`), the test
`validate_amount` performs. -/
def pyLe0 : PyFloat → Bool
  | .finite d => d.num ≤ 0
  | .inf => false
  | .negInf => true
  | .nan => false

/-- Python comparison `v > 0` on a float value (`False` on `nan`); used to
state the specification's invariant `amount > 0`. -/
def pyGt0 : PyFloat → Bool
  | .finite d => 0 < d.num
  | .inf => true
  | .negInf => false
  | .nan => false

/-! ### Parsing a float string: model of `float(amount)`

CPython `float(str)` strips surrounding whitespace, accepts an optional sign,
then either a spelling of infinity/nan (case-insensitive) or a decimal
literal `d+[.d*][exp] | .d+[exp]` with `exp = (e|E)[sign]d+`, where each digit
group may contain single underscores between digits (PEP 515). -/

/-- Consume a digit group with PEP-515 underscores: digits already holding
`acc` (with `n` digits read so far), where an underscore is allowed only
between two digits.  Returns the value and digit count of the maximal group
together with the unconsumed rest. -/
def parseUDigitsGo (acc n : Nat) : List Char → Nat × Nat × List Char
  | [] => (acc, n, [])
  | c :: rest =>
    if c.isDigit then parseUDigitsGo (10 * acc + dval c) (n + 1) rest
    else if c == '_' then
      match rest with
      | d :: rest2 =>
        if d.isDigit then parseUDigitsGo (10 * acc + dval d) (n + 1) rest2
        else (acc, n, c :: d :: rest2)
      | [] => (acc, n, [c])
    else (acc, n, c :: rest)

/-- Consume a non-empty digit group (with PEP-515 underscores); `none` when
the input does not start with a digit. -/
def parseUDigits : List Char → Option (Nat × Nat × List Char)
  | [] => none
  | c :: rest => if c.isDigit then some (parseUDigitsGo (dval c) 1 rest) else none

/-- Value of an integer part plus a fraction part of `fl` digits. -/
def decMantissa (ip fp : Nat) (fl : Nat) : Dec := ⟨(ip : Int) * (10 : Int) ^ fl + fp, fl⟩

/-- Apply a decimal exponent to a mantissa. -/
def decApplyExp (m : Dec) (neg : Bool) (ev : Nat) : Dec :=
  if neg then ⟨m.num, m.exp + ev⟩ else ⟨m.num * (10 : Int) ^ ev, m.exp⟩

/-- Parse the digits of an exponent and finish the literal; the whole rest of
the input must be consumed. -/
def parseExpDigits (m : Dec) (neg : Bool) (l : List Char) : Option Dec :=
  match parseUDigits l with
  | some (ev, _, []) => some (decApplyExp m neg ev)
  | _ => none

/-- Parse an optional exponent part after the mantissa `m`; the whole rest of
the input must be consumed. -/
def parseExpPart (m : Dec) : List Char → Option Dec
  | [] => some m
  | c :: rest =>
    if c == 'e' || c == 'E' then
      match rest with
      | '+' :: r2 => parseExpDigits m false r2
      | '-' :: r2 => parseExpDigits m true r2
      | r2 => parseExpDigits m false r2
    else none

/-- Parse an unsigned decimal float literal (`d+[.d*][exp] | .d+[exp]`),
consuming the whole input. -/
def parseNumber (l : List Char) : Option Dec :=
  match parseUDigits l with
  | some (ip, _, r1) =>
    match r1 with
    | '.' :: r2 =>
      match parseUDigits r2 with
      | some (fp, fl, r3) => parseExpPart (decMantissa ip fp fl) r3
      | none => parseExpPart (decMantissa ip 0 0) r2
    | _ => parseExpPart ⟨(ip : Int), 0⟩ r1
  | none =>
    match l with
    | '.' :: r2 =>
      match parseUDigits r2 with
      | some (fp, fl, r3) => parseExpPart ⟨(fp : Int), fl⟩ r3
      | none => none
    | _ => none

/-- Parse the body of a float string after an optional sign has been removed:
a spelling of infinity or nan (case-insensitive), or a decimal literal. -/
def parseSigned (neg : Bool) (l : List Char) : Option PyFloat :=
  let low := l.map pyLowerChar
  if low = "inf".data ∨ low = "infinity".data then
    some (if neg then .negInf else .inf)
  else if low = "nan".data then some .nan
  else
    match parseNumber l with
    | some d => some (.finite (if neg then ⟨-d.num, d.exp⟩ else d))
    | none => none

/-- Model of Python `float(s)`: `none` when the conversion raises
`ValueError`, otherwise the converted value. -/
def parseFloat (s : String) : Option PyFloat :=
  match pyStripChars s.data with
  | '+' :: rest => parseSigned false rest
  | '-' :: rest => parseSigned true rest
  | l => parseSigned false l

/-! ### The validators (lines 36-55 of expense_tracker.py) -/

/-- Model of `ExpenseTracker.validate_amount`: parse with `float`, reject a
result that compares `<= 0` (so `nan` and `inf` pass the comparison, exactly
as in the Python code). -/
def validate_amount (amount : String) : Option PyFloat :=
  match parseFloat amount with
  | none => none
  | some v => if pyLe0 v then none else some v

/-- Gregorian leap-year rule used by `datetime`. -/
def isLeapYear (y : Nat) : Bool :=
  y % 4 == 0 && (y % 100 != 0 || y % 400 == 0)

/-- Length of a month in the proleptic Gregorian calendar of `datetime`. -/
def daysInMonth (y m : Nat) : Nat :=
  if m == 2 then (if isLeapYear y then 29 else 28)
  else if m == 4 || m == 6 || m == 9 || m == 11 then 30
  else 31

/-- Take up to `n` leading decimal digits, returning them and the rest. -/
def takeDigitsUpTo : Nat → List Char → List Char × List Char
  | 0, l => ([], l)
  | _ + 1, [] => ([], [])
  | n + 1, c :: rest =>
    if c.isDigit then
      let p := takeDigitsUpTo n rest
      (c :: p.1, p.2)
    else ([], c :: rest)

/-- Range check performed by `datetime.strptime` for `%Y-%m-%d`: the regex
bounds the month by 12 and the day by 31, and the `datetime` constructor
requires `year >= 1` (`year <= 9999` is implied by the four-digit year) and
the day to exist in the month. -/
def dateOk (y m d : Nat) : Bool :=
  1 ≤ y && 1 ≤ m && m ≤ 12 && 1 ≤ d && d ≤ 31 && d ≤ daysInMonth y m

/-- Tokenizer of `datetime.strptime(s, "%Y-%m-%d")`.  The compiled pattern is
`\d\d\d\d - (1[0-2]|0[1-9]|[1-9]) - (3[01]|[12]\d|0[1-9]|[1-9])` followed by a
check that the whole string was consumed.  Because each numeric token is
followed by a non-digit (`-` or the end of the string), the ordered
alternation is equivalent to greedily taking up to two digits and then
checking the numeric range (done in `dateOk`). -/
def scanYMD (l : List Char) : Option (Nat × Nat × Nat) :=
  if (takeDigitsUpTo 4 l).1.length = 4 then
    match (takeDigitsUpTo 4 l).2 with
    | '-' :: r2 =>
      if (takeDigitsUpTo 2 r2).1 ≠ [] then
        match (takeDigitsUpTo 2 r2).2 with
        | '-' :: r4 =>
          if (takeDigitsUpTo 2 r4).1 ≠ [] ∧ (takeDigitsUpTo 2 r4).2 = [] then
            some (digitsVal (takeDigitsUpTo 4 l).1, digitsVal (takeDigitsUpTo 2 r2).1,
              digitsVal (takeDigitsUpTo 2 r4).1)
          else none
        | _ => none
      else none
    | _ => none
  else none

/-- Model of `ExpenseTracker.validate_date`: succeed (returning the input
string unchanged) exactly when `datetime.strptime(s, "%Y-%m-%d")` does. -/
def validate_date (date_str : String) : Option String :=
  match scanYMD date_str.data with
  | some (y, m, d) => if dateOk y m d then some date_str else none
  | none => none

/-! ### Records and the store (lines 9-34 of expense_tracker.py) -/

/-- One expense record: the dict built in `add_expense` with keys `amount`,
`date`, `note`, `category`. -/
structure Expense where
  amount : PyFloat
  date : String
  note : String
  category : String
deriving DecidableEq

/-- Normalization of the category field: `category.strip() or "Uncategorized"`. -/
def stripOrDefault (category : String) : String :=
  if pyStrip category = "" then "Uncategorized" else pyStrip category

/-- Content of the data file `expenses.json`: absent, unreadable or not valid
JSON (`corrupt`), or a decoded list of records. -/
inductive FileContent where
  | absent
  | corrupt
  | records (l : List Expense)
deriving DecidableEq

/-- The tracker state: the in-memory list `self.expenses` plus the modelled
content of the data file. -/
structure ExpenseTracker where
  expenses : List Expense
  file : FileContent
deriving DecidableEq

/-- Model of `ExpenseTracker.load_data` (run by `__init__`): the decoded list
if the file exists and decodes, the empty list otherwise.  No validation of
the decoded records is performed. -/
def load_data (file : FileContent) : ExpenseTracker :=
  { expenses := match file with
      | .records l => l
      | _ => []
    file := file }

/-- Model of `ExpenseTracker.save_data`: overwrite the file with the current
in-memory list. -/
def save_data (t : ExpenseTracker) : ExpenseTracker :=
  { t with file := .records t.expenses }

/-! ### add_expense (lines 57-73) -/

/-- Model of `ExpenseTracker.add_expense`.  Both fields are validated; on any
failure nothing changes and `False` is returned, otherwise the normalized
record is appended, the store is saved and `True` is returned. -/
def add_expense (t : ExpenseTracker) (amount date note : String)
    (category : String := "Uncategorized") : ExpenseTracker × Bool :=
  match validate_amount amount, validate_date date with
  | some va, some vd =>
    let e : Expense := ⟨va, vd, pyStrip note, stripOrDefault category⟩
    (save_data { t with expenses := t.expenses ++ [e] }, true)
  | _, _ => (t, false)

/-! ### view_expenses (lines 75-93) -/

/-- Outcome of `view_expenses`: the store is empty, nothing matched the
filter, or the list of records that is printed. -/
inductive ViewResult where
  | noExpenses
  | noMatch
  | listing (l : List Expense)
deriving DecidableEq

/-- Model of `ExpenseTracker.view_expenses`.  A filter argument is applied
only when it is truthy (`if filter_category:`), so `None` and the empty
string both mean "no filter".  The category comparison lower-cases both
sides; the date comparison is exact. -/
def view_expenses (t : ExpenseTracker)
    (filter_category : Option String := none) (filter_date : Option String := none) :
    ViewResult :=
  if t.expenses.isEmpty then .noExpenses
  else
    let l1 := match filter_category with
      | some c => if c.isEmpty then t.expenses
          else t.expenses.filter (fun e => pyLower e.category == pyLower c)
      | none => t.expenses
    let l2 := match filter_date with
      | some d => if d.isEmpty then l1 else l1.filter (fun e => e.date == d)
      | none => l1
    if l2.isEmpty then .noMatch else .listing l2

/-! ### update_expense (lines 95-118) -/

/-- The `if amount:` branch of `update_expense`: skipped when the argument is
`None` or empty (falsy), and also when validation fails; otherwise the
amount field is replaced. -/
def applyAmount (exp : Expense) (amount : Option String) : Expense :=
  match amount with
  | none => exp
  | some s =>
    if s.isEmpty then exp
    else
      match validate_amount s with
      | some v => { exp with amount := v }
      | none => exp

/-- The `if date:` branch of `update_expense`, analogous to `applyAmount`. -/
def applyDate (exp : Expense) (date : Option String) : Expense :=
  match date with
  | none => exp
  | some s =>
    if s.isEmpty then exp
    else
      match validate_date s with
      | some v => { exp with date := v }
      | none => exp

/-- The `if note is not None:` branch of `update_expense`: any supplied note
(including the empty string) is stripped and stored. -/
def applyNote (exp : Expense) (note : Option String) : Expense :=
  match note with
  | none => exp
  | some s => { exp with note := pyStrip s }

/-- The `if category is not None:` branch of `update_expense`: a supplied
category is stripped, with the empty result replaced by `"Uncategorized"`. -/
def applyCategory (exp : Expense) (category : Option String) : Expense :=
  match category with
  | none => exp
  | some s => { exp with category := stripOrDefault s }

/-- Model of `ExpenseTracker.update_expense`.  Out-of-range indices fail
without any change; in range, the four optional fields are applied
independently in source order and the store is saved unconditionally. -/
def update_expense (t : ExpenseTracker) (index : Int)
    (amount : Option String := none) (date : Option String := none)
    (note : Option String := none) (category : Option String := none) :
    ExpenseTracker × Bool :=
  if h : 1 ≤ index ∧ index ≤ (t.expenses.length : Int) then
    let idx : Nat := (index - 1).toNat
    let exp := t.expenses.get ⟨idx, by omega⟩
    let exp2 := applyCategory (applyNote (applyDate (applyAmount exp amount) date) note) category
    (save_data { t with expenses := t.expenses.set idx exp2 }, true)
  else (t, false)

/-! ### delete_expense (lines 120-129) -/

/-- Model of `ExpenseTracker.delete_expense`.  Out-of-range indices fail
without any change; in range, the record is popped, reported (the printed
description), and the store is saved.  The second component is `some` of the
removed record on success and `none` on failure. -/
def delete_expense (t : ExpenseTracker) (index : Int) :
    ExpenseTracker × Option Expense :=
  if h : 1 ≤ index ∧ index ≤ (t.expenses.length : Int) then
    let idx : Nat := (index - 1).toNat
    let deleted := t.expenses.get ⟨idx, by omega⟩
    (save_data { t with expenses := t.expenses.eraseIdx idx }, some deleted)
  else (t, none)

/-! ### show_summary (lines 131-156) -/

/-- Add `a` to the bucket of key `k`, inserting `dict.get(k, 0) + a` at the
end when the key is new — the in-order accumulation of a Python dict. -/
def upsert (k : String) (a : PyFloat) : List (String × PyFloat) → List (String × PyFloat)
  | [] => [(k, pyAdd pyZero a)]
  | p :: rest => if p.1 = k then (p.1, pyAdd p.2 a) :: rest else p :: upsert k a rest

/-- Accumulate the per-key totals of `l` in insertion order, as the loops
building `by_category` and `by_month` do. -/
def groupTotals (key : Expense → String) (l : List Expense) : List (String × PyFloat) :=
  l.foldl (fun acc e => upsert (key e) e.amount acc) []

/-- Lexicographic comparison of character lists by code point, the order
Python uses to compare strings. -/
def lexLe : List Char → List Char → Bool
  | [], _ => true
  | _ :: _, [] => false
  | a :: as, b :: bs => if a == b then lexLe as bs else decide (a.toNat < b.toNat)

/-- Python string comparison `a <= b` (code-point lexicographic). -/
def strLe (a b : String) : Bool := lexLe a.data b.data

/-- Ordering used by `sorted(d.items())`: the keys are distinct, so the tuple
comparison reduces to comparison of the keys (code-point lexicographic). -/
def keyLe (p q : String × PyFloat) : Prop := strLe p.1 q.1 = true

instance : DecidableRel keyLe := fun p q => inferInstanceAs (Decidable (strLe p.1 q.1 = true))

/-- Model of `sorted(d.items())` on a dict with distinct keys: the unique
arrangement of the pairs with ascending keys. -/
def sortPairs (l : List (String × PyFloat)) : List (String × PyFloat) :=
  l.insertionSort keyLe

/-- The month key `e['date'][:7]` (the first at most seven characters). -/
def monthKey (e : Expense) : String := ⟨e.date.data.take 7⟩

/-- The data printed by `show_summary`. -/
structure Summary where
  total : PyFloat
  byCategory : List (String × PyFloat)
  byMonth : List (String × PyFloat)
deriving DecidableEq

/-- Model of `ExpenseTracker.show_summary`: `none` on an empty store (the
"No expenses for summary." message), otherwise the grand total and the two
sorted per-key total tables. -/
def show_summary (t : ExpenseTracker) : Option Summary :=
  if t.expenses.isEmpty then none
  else
    some
      { total := t.expenses.foldl (fun acc e => pyAdd acc e.amount) pyZero
        byCategory := sortPairs (groupTotals (fun e => e.category) t.expenses)
        byMonth := sortPairs (groupTotals monthKey t.expenses) }

/-! ### Reachability of store states -/

/-- Store states reachable in a run of the program: the state produced by
`load_data` at process start, followed by any sequence of `add_expense`,
`update_expense`, `delete_expense` operations (the mutating operations of the
command loop; `view_expenses` and `show_summary` do not change the state). -/
inductive Reachable : ExpenseTracker → Prop where
  | load (file : FileContent) : Reachable (load_data file)
  | add (t : ExpenseTracker) (amount date note category : String) :
      Reachable t → Reachable (add_expense t amount date note category).1
  | update (t : ExpenseTracker) (index : Int)
      (amount date note category : Option String) :
      Reachable t → Reachable (update_expense t index amount date note category).1
  | delete (t : ExpenseTracker) (index : Int) :
      Reachable t → Reachable (delete_expense t index).1

/-- Store states reachable from an empty expense list (any file content) by
the mutating operations alone. -/
inductive MutReachable : ExpenseTracker → Prop where
  | init (file : FileContent) : MutReachable ⟨[], file⟩
  | add (t : ExpenseTracker) (amount date note category : String) :
      MutReachable t → MutReachable (add_expense t amount date note category).1
  | update (t : ExpenseTracker) (index : Int)
      (amount date note category : Option String) :
      MutReachable t → MutReachable (update_expense t index amount date note category).1
  | delete (t : ExpenseTracker) (index : Int) :
      MutReachable t → MutReachable (delete_expense t index).1

/-! ### Predicates taken from the specification's wording -/

/-- Specification wording of a syntactically valid date: a valid Gregorian
calendar date in strict `YYYY-MM-DD` form (four-digit year, two-digit
zero-padded month and day). -/
def specStrictDate (s : String) : Bool :=
  match s.data with
  | [y1, y2, y3, y4, c1, m1, m2, c2, d1, d2] =>
    c1 == '-' && c2 == '-' && ([y1, y2, y3, y4, m1, m2, d1, d2].all Char.isDigit) &&
      dateOk (digitsVal [y1, y2, y3, y4]) (digitsVal [m1, m2]) (digitsVal [d1, d2])
  | _ => false

/-- Specification wording of the store invariant: every stored record has
`amount > 0`, a syntactically valid `YYYY-MM-DD` calendar date, and a
non-empty category. -/
def SpecInvariant (t : ExpenseTracker) : Prop :=
  ∀ e ∈ t.expenses, pyGt0 e.amount = true ∧ specStrictDate e.date = true ∧ e.category ≠ ""

/-- The record-level invariant the code actually establishes: the amount
passed `validate_amount`'s check (`not (v <= 0)` in float comparison), the
date is accepted by `validate_date`, and the category is non-empty. -/
def CodeRecordOk (e : Expense) : Prop :=
  pyLe0 e.amount = false ∧ validate_date e.date = some e.date ∧ e.category ≠ ""

/-- A structurally well-formed data file whose record violates the
specification invariant (negative amount, malformed date, empty category):
`json.load` decodes it without complaint and `load_data` keeps it. -/
def badFile : FileContent :=
  .records [⟨.finite ⟨-5, 0⟩, "nonsense", " ", ""⟩]

/-- Date strings accepted by `strptime`'s `%Y-%m-%d`, spelled out: a 4-digit
year, a dash, a 1- or 2-digit month, a dash, and a 1- or 2-digit day, whose
numeric values form a valid proleptic Gregorian calendar date with year at
least 1 (zero-padding of month and day is optional). -/
def looseYMD (s : String) : Prop :=
  ∃ ys ms ds : List Char,
    s.data = ys ++ '-' :: (ms ++ '-' :: ds) ∧
    ys.length = 4 ∧ ys.all Char.isDigit = true ∧
    1 ≤ ms.length ∧ ms.length ≤ 2 ∧ ms.all Char.isDigit = true ∧
    1 ≤ ds.length ∧ ds.length ≤ 2 ∧ ds.all Char.isDigit = true ∧
    dateOk (digitsVal ys) (digitsVal ms) (digitsVal ds) = true

/-- Lookup of the total recorded for key `k` in an association list. -/
def findVal (k : String) : List (String × PyFloat) → Option PyFloat
  | [] => none
  | p :: rest => if p.1 = k then some p.2 else findVal k rest

/-- Specification of one total table of `show_summary` over the records `l`
with key function `key`: strictly ascending keys, the keys are exactly the
keys occurring in `l`, and each pair holds the sum of the amounts of the
records with that key. -/
def groupSpec (key : Expense → String) (l : List Expense) (g : List (String × PyFloat)) : Prop :=
  List.Pairwise (fun p q => keyLe p q ∧ p.1 ≠ q.1) g ∧
  (∀ k : String, k ∈ g.map Prod.fst ↔ ∃ e ∈ l, key e = k) ∧
  (∀ k v, (k, v) ∈ g →
    v = ((l.filter (fun e => key e = k)).foldl (fun acc e => pyAdd acc e.amount) pyZero))

/-- The three example records of the specification's `summary()` property. -/
def exampleExpenses : List Expense :=
  [⟨.finite ⟨10, 0⟩, "2024-01-05", "", "Food"⟩,
   ⟨.finite ⟨5, 0⟩, "2024-01-20", "", "Food"⟩,
   ⟨.finite ⟨7, 0⟩, "2024-02-01", "", "Travel"⟩]

/-! ## Supporting lemmas -/

theorem lexLe_total : ∀ a b : List Char, lexLe a b = true ∨ lexLe b a = true := by
  intro a
  induction a with
  | nil => intro b; left; rfl
  | cons x as ih =>
    intro b
    cases b with
    | nil => right; rfl
    | cons y bs =>
      by_cases hxy : x = y
      · subst hxy
        simpa [lexLe] using ih bs
      · have hne : x.toNat ≠ y.toNat := fun h => hxy (Char.ext (by
          have : x.val.toNat = y.val.toNat := h
          exact UInt32.toNat.inj this))
        rcases Nat.lt_or_ge x.toNat y.toNat with h | h
        · left; simp [lexLe, hxy, h]
        · right
          have hyx : y ≠ x := fun h2 => hxy h2.symm
          have : y.toNat < x.toNat := lt_of_le_of_ne h (fun h2 => hne h2.symm)
          simp [lexLe, hyx, this]

theorem lexLe_trans :
    ∀ a b c : List Char, lexLe a b = true → lexLe b c = true → lexLe a c = true := by
  intro a
  induction a with
  | nil => intro b c _ _; rfl
  | cons x as ih =>
    intro b c hab hbc
    cases b with
    | nil => simp [lexLe] at hab
    | cons y bs =>
      cases c with
      | nil => simp [lexLe] at hbc
      | cons z cs =>
        by_cases hxy : x = y <;> by_cases hyz : y = z
        · subst hxy; subst hyz
          simp only [lexLe, beq_self_eq_true, if_true] at hab hbc ⊢
          exact ih bs cs hab hbc
        · subst hxy
          simp only [lexLe, beq_self_eq_true, if_true] at hab
          simp [lexLe, hyz] at hbc ⊢
          exact hbc
        · subst hyz
          simp [lexLe, hxy] at hab ⊢
          exact hab
        · simp [lexLe, hxy, hyz] at hab hbc
          have hxz : x.toNat < z.toNat := Nat.lt_trans hab hbc
          have : x ≠ z := fun h => by subst h; exact Nat.lt_irrefl _ hxz
          simp [lexLe, this, hxz]

theorem Dec.num_pos_iff (d : Dec) : 0 < d.num ↔ 0 < d.toRat := by
  unfold Dec.toRat
  rw [div_pos_iff]
  constructor
  · intro h
    left
    exact ⟨by exact_mod_cast h, by positivity⟩
  · rintro (⟨h, -⟩ | ⟨-, h⟩)
    · exact_mod_cast h
    · exact absurd h (not_lt.mpr (by positivity))

theorem validate_date_some_eq (s v : String) (h : validate_date s = some v) : v = s := by
  unfold validate_date at h
  split at h
  · split at h
    · injection h with h2
      exact h2.symm
    · exact absurd h (by simp)
  · exact absurd h (by simp)

theorem validate_date_eq_of_isSome (s : String) (h : (validate_date s).isSome = true) :
    validate_date s = some s := by
  obtain ⟨v, hv⟩ := Option.isSome_iff_exists.mp h
  rw [hv, validate_date_some_eq s v hv]

theorem validate_amount_le0 (s : String) (v : PyFloat) (h : validate_amount s = some v) :
    pyLe0 v = false := by
  unfold validate_amount at h
  cases hp : parseFloat s with
  | none => rw [hp] at h; exact absurd h (by simp)
  | some w =>
    rw [hp] at h
    by_cases hle : pyLe0 w = true
    · simp [hle] at h
    · simp [hle] at h
      simp [← h]
      simpa using hle

theorem validate_amount_of_parse (s : String) (q : Dec)
    (hp : parseFloat s = some (.finite q)) (hq : 0 < q.num) :
    validate_amount s = some (.finite q) := by
  unfold validate_amount
  rw [hp]
  have : pyLe0 (.finite q) = false := by
    simp [pyLe0]
    omega
  simp [this]

theorem stripOrDefault_ne_empty (s : String) : stripOrDefault s ≠ "" := by
  unfold stripOrDefault
  by_cases h : pyStrip s = ""
  · simp [h]
  · simp [h]

/-! ## The claims -/

/-- C1: for every amount string that parses as a number > 0, every date
string accepted by `validate_date`, and any note and category strings,
`add_expense` returns success, appends exactly one record at the end (the
count grows by one), persists, and the new record's fields are the
normalized inputs: the parsed amount, the given date string, the stripped
note, and the stripped category with an empty result replaced by
`"Uncategorized"`; all pre-existing records are unchanged. -/
theorem add_expense_valid_spec (t : ExpenseTracker) (amount date note category : String)
    (q : Dec) (hamt : parseFloat amount = some (.finite q)) (hpos : 0 < q.toRat)
    (hdate : (validate_date date).isSome = true) :
    (add_expense t amount date note category).2 = true ∧
    (add_expense t amount date note category).1.expenses
      = t.expenses ++ [⟨.finite q, date, pyStrip note, stripOrDefault category⟩] ∧
    (add_expense t amount date note category).1.expenses.length
      = t.expenses.length + 1 ∧
    (add_expense t amount date note category).1.file
      = .records (t.expenses ++ [⟨.finite q, date, pyStrip note, stripOrDefault category⟩]) := by
  have hq : 0 < q.num := (Dec.num_pos_iff q).mpr hpos
  have hva : validate_amount amount = some (.finite q) := validate_amount_of_parse _ _ hamt hq
  have hvd : validate_date date = some date := validate_date_eq_of_isSome _ hdate
  unfold add_expense
  rw [hva, hvd]
  simp [save_data]

/-- Witness for C1 at a concrete input. -/
theorem add_expense_valid_spec_witness :
    parseFloat "12.50" = some (.finite ⟨1250, 2⟩) ∧
    0 < Dec.toRat ⟨1250, 2⟩ ∧
    (validate_date "2024-01-05").isSome = true ∧
    (add_expense ⟨[], .absent⟩ "12.50" "2024-01-05" " lunch " "").2 = true ∧
    (add_expense ⟨[], .absent⟩ "12.50" "2024-01-05" " lunch " "").1.expenses
      = [⟨.finite ⟨1250, 2⟩, "2024-01-05", "lunch", "Uncategorized"⟩] :=
  ⟨by decide, (Dec.num_pos_iff ⟨1250, 2⟩).mp (by decide), by decide,
    (add_expense_valid_spec ⟨[], .absent⟩ "12.50" "2024-01-05" " lunch " "" ⟨1250, 2⟩
      (by decide) ((Dec.num_pos_iff ⟨1250, 2⟩).mp (by decide)) (by decide)).1,
    ((add_expense_valid_spec ⟨[], .absent⟩ "12.50" "2024-01-05" " lunch " "" ⟨1250, 2⟩
      (by decide) ((Dec.num_pos_iff ⟨1250, 2⟩).mp (by decide)) (by decide)).2.1).trans
      (by decide)⟩

/-- C6: whenever the amount string is non-numeric or parses to a value
comparing `<= 0`, or the date string fails validation, `add_expense` returns
failure and changes nothing: neither the in-memory list nor the file. -/
theorem add_expense_invalid_spec (t : ExpenseTracker) (amount date note category : String)
    (h : (parseFloat amount = none ∨ ∃ v, parseFloat amount = some v ∧ pyLe0 v = true) ∨
      validate_date date = none) :
    add_expense t amount date note category = (t, false) := by
  unfold add_expense
  rcases h with h | h
  · have hva : validate_amount amount = none := by
      unfold validate_amount
      rcases h with h | ⟨v, hv, hle⟩
      · rw [h]
      · rw [hv]
        simp [hle]
    rw [hva]
  · rw [h]
    cases validate_amount amount <;> rfl

/-- Witness for C6 at a concrete input. -/
theorem add_expense_invalid_spec_witness :
    ((parseFloat "abc" = none ∨ ∃ v, parseFloat "abc" = some v ∧ pyLe0 v = true) ∨
      validate_date "2024-01-05" = none) ∧
    add_expense ⟨exampleExpenses, .absent⟩ "abc" "2024-01-05" "x" "y"
      = (⟨exampleExpenses, .absent⟩, false) :=
  ⟨Or.inl (Or.inl (by decide)),
    add_expense_invalid_spec ⟨exampleExpenses, .absent⟩ "abc" "2024-01-05" "x" "y"
      (Or.inl (Or.inl (by decide)))⟩

/-- C5: for every index outside `[1, length]`, `update_expense` and
`delete_expense` return failure and leave the state (in-memory list and
file) completely unchanged. -/
theorem out_of_range_spec (t : ExpenseTracker) (index : Int)
    (h : index < 1 ∨ (t.expenses.length : Int) < index)
    (amount date note category : Option String) :
    update_expense t index amount date note category = (t, false) ∧
    delete_expense t index = (t, none) := by
  constructor
  · unfold update_expense
    rw [dif_neg (by omega)]
  · unfold delete_expense
    rw [dif_neg (by omega)]

/-- Witness for C5 at a concrete input. -/
theorem out_of_range_spec_witness :
    ((0 : Int) < 1 ∨ (((⟨exampleExpenses, .absent⟩ : ExpenseTracker).expenses.length : Int) < 0)) ∧
    update_expense ⟨exampleExpenses, .absent⟩ 0 (some "99") none none none
      = (⟨exampleExpenses, .absent⟩, false) ∧
    delete_expense ⟨exampleExpenses, .absent⟩ 0 = (⟨exampleExpenses, .absent⟩, none) :=
  ⟨Or.inl (by decide),
    (out_of_range_spec ⟨exampleExpenses, .absent⟩ 0 (Or.inl (by decide))
      (some "99") none none none).1,
    (out_of_range_spec ⟨exampleExpenses, .absent⟩ 0 (Or.inl (by decide))
      (some "99") none none none).2⟩

theorem applyNote_amount (e : Expense) (x : Option String) : (applyNote e x).amount = e.amount := by
  cases x <;> rfl

theorem applyNote_date (e : Expense) (x : Option String) : (applyNote e x).date = e.date := by
  cases x <;> rfl

theorem applyNote_category (e : Expense) (x : Option String) :
    (applyNote e x).category = e.category := by
  cases x <;> rfl

theorem applyCategory_amount (e : Expense) (x : Option String) :
    (applyCategory e x).amount = e.amount := by
  cases x <;> rfl

theorem applyCategory_date (e : Expense) (x : Option String) :
    (applyCategory e x).date = e.date := by
  cases x <;> rfl

theorem applyCategory_note (e : Expense) (x : Option String) :
    (applyCategory e x).note = e.note := by
  cases x <;> rfl

theorem applyAmount_date (e : Expense) (x : Option String) : (applyAmount e x).date = e.date := by
  unfold applyAmount
  cases x with
  | none => rfl
  | some s =>
    by_cases h : s.isEmpty
    · simp [h]
    · simp [h]
      cases validate_amount s <;> rfl

theorem applyAmount_note (e : Expense) (x : Option String) : (applyAmount e x).note = e.note := by
  unfold applyAmount
  cases x with
  | none => rfl
  | some s =>
    by_cases h : s.isEmpty
    · simp [h]
    · simp [h]
      cases validate_amount s <;> rfl

theorem applyAmount_category (e : Expense) (x : Option String) :
    (applyAmount e x).category = e.category := by
  unfold applyAmount
  cases x with
  | none => rfl
  | some s =>
    by_cases h : s.isEmpty
    · simp [h]
    · simp [h]
      cases validate_amount s <;> rfl

theorem applyDate_amount (e : Expense) (x : Option String) : (applyDate e x).amount = e.amount := by
  unfold applyDate
  cases x with
  | none => rfl
  | some s =>
    by_cases h : s.isEmpty
    · simp [h]
    · simp [h]
      cases validate_date s <;> rfl

theorem applyDate_note (e : Expense) (x : Option String) : (applyDate e x).note = e.note := by
  unfold applyDate
  cases x with
  | none => rfl
  | some s =>
    by_cases h : s.isEmpty
    · simp [h]
    · simp [h]
      cases validate_date s <;> rfl

theorem applyDate_category (e : Expense) (x : Option String) :
    (applyDate e x).category = e.category := by
  unfold applyDate
  cases x with
  | none => rfl
  | some s =>
    by_cases h : s.isEmpty
    · simp [h]
    · simp [h]
      cases validate_date s <;> rfl

theorem applyAmount_amount (e : Expense) (x : Option String) :
    (applyAmount e x).amount = (match x with
      | none => e.amount
      | some s => match validate_amount s with
        | some v => v
        | none => e.amount) := by
  unfold applyAmount
  cases x with
  | none => rfl
  | some s =>
    by_cases h : s.isEmpty
    · have hs : s = "" := (String.isEmpty_iff s).mp h
      subst hs
      have : validate_amount "" = none := by decide
      simp [h, this]
    · simp [h]
      cases validate_amount s <;> rfl

theorem applyDate_date (e : Expense) (x : Option String) :
    (applyDate e x).date = (match x with
      | none => e.date
      | some s => match validate_date s with
        | some v => v
        | none => e.date) := by
  unfold applyDate
  cases x with
  | none => rfl
  | some s =>
    by_cases h : s.isEmpty
    · have hs : s = "" := (String.isEmpty_iff s).mp h
      subst hs
      have : validate_date "" = none := by decide
      simp [h, this]
    · simp [h]
      cases validate_date s <;> rfl

/-- C4: for `update_expense` with an in-range index, each supplied optional
field is validated independently: a supplied amount or date that fails
validation is silently skipped (the record keeps the prior value of that
field), other supplied valid fields are still applied, and the update
persists and returns success even when no supplied field was valid (a no-op
save) — it never aborts wholesale the way `add_expense` does. -/
theorem update_expense_in_range_spec (t : ExpenseTracker) (index : Int)
    (amount date note category : Option String)
    (h1 : 1 ≤ index) (h2 : index ≤ (t.expenses.length : Int))
    (hidx : (index - 1).toNat < t.expenses.length) :
    let old := t.expenses.get ⟨(index - 1).toNat, hidx⟩
    let new := applyCategory (applyNote (applyDate (applyAmount old amount) date) note) category
    (update_expense t index amount date note category).2 = true ∧
    (update_expense t index amount date note category).1.expenses
      = t.expenses.set (index - 1).toNat new ∧
    (update_expense t index amount date note category).1.file
      = .records (t.expenses.set (index - 1).toNat new) ∧
    new.amount = (match amount with
      | none => old.amount
      | some s => match validate_amount s with
        | some v => v
        | none => old.amount) ∧
    new.date = (match date with
      | none => old.date
      | some s => match validate_date s with
        | some v => v
        | none => old.date) ∧
    new.note = (match note with
      | none => old.note
      | some s => pyStrip s) ∧
    new.category = (match category with
      | none => old.category
      | some s => stripOrDefault s) := by
  intro old new
  have hu : update_expense t index amount date note category
      = (save_data { t with expenses := t.expenses.set (index - 1).toNat new }, true) := by
    unfold update_expense
    rw [dif_pos ⟨h1, h2⟩]
  refine ⟨by rw [hu], by rw [hu]; rfl, by rw [hu]; rfl, ?_, ?_, ?_, ?_⟩
  · rw [applyCategory_amount, applyNote_amount, applyDate_amount, applyAmount_amount]
  · rw [applyCategory_date, applyNote_date, applyDate_date, applyAmount_date]
  · rw [applyCategory_note]
    cases note with
    | none =>
      show (applyDate (applyAmount old amount) date).note = old.note
      rw [applyDate_note, applyAmount_note]
    | some s => rfl
  · cases category with
    | none =>
      show (applyNote (applyDate (applyAmount old amount) date) note).category = old.category
      rw [applyNote_category, applyDate_category, applyAmount_category]
    | some s => rfl

/-- Witness for C4 at a concrete input: index 2 with an invalid amount, an
invalid date, a note, and no category; the invalid fields are skipped and
the update still succeeds. -/
theorem update_expense_in_range_spec_witness :
    (1 : Int) ≤ 2 ∧ (2 : Int) ≤ ((⟨exampleExpenses, .absent⟩ : ExpenseTracker).expenses.length : Int) ∧
    (update_expense ⟨exampleExpenses, .absent⟩ 2 (some "oops") (some "2024-13-40") (some " note ") none).2
      = true ∧
    (update_expense ⟨exampleExpenses, .absent⟩ 2 (some "oops") (some "2024-13-40") (some " note ") none).1.expenses
      = [⟨.finite ⟨10, 0⟩, "2024-01-05", "", "Food"⟩,
         ⟨.finite ⟨5, 0⟩, "2024-01-20", "note", "Food"⟩,
         ⟨.finite ⟨7, 0⟩, "2024-02-01", "", "Travel"⟩] :=
  ⟨by decide, by decide,
    (update_expense_in_range_spec ⟨exampleExpenses, .absent⟩ 2
      (some "oops") (some "2024-13-40") (some " note ") none
      (by decide) (by decide) (by decide)).1,
    ((update_expense_in_range_spec ⟨exampleExpenses, .absent⟩ 2
      (some "oops") (some "2024-13-40") (some " note ") none
      (by decide) (by decide) (by decide)).2.1).trans (by decide)⟩

/-- C9: for `update_expense` with an in-range index where only a note is
supplied, the targeted record's note becomes the stripped supplied note
while its amount, date and category are unchanged, and every other record is
unchanged. -/
theorem update_expense_note_only_spec (t : ExpenseTracker) (index : Int) (s : String)
    (h1 : 1 ≤ index) (h2 : index ≤ (t.expenses.length : Int))
    (hidx : (index - 1).toNat < t.expenses.length) :
    (update_expense t index none none (some s) none).2 = true ∧
    (update_expense t index none none (some s) none).1.expenses
      = t.expenses.set (index - 1).toNat
          { t.expenses.get ⟨(index - 1).toNat, hidx⟩ with note := pyStrip s } ∧
    ∀ j : Nat, j ≠ (index - 1).toNat →
      (update_expense t index none none (some s) none).1.expenses[j]? = t.expenses[j]? := by
  have hu : update_expense t index none none (some s) none
      = (save_data
          { t with
            expenses := t.expenses.set (index - 1).toNat
              ({ t.expenses.get ⟨(index - 1).toNat, hidx⟩ with note := pyStrip s }) },
         true) := by
    unfold update_expense
    rw [dif_pos ⟨h1, h2⟩]
    rfl
  refine ⟨by rw [hu], by rw [hu]; rfl, ?_⟩
  intro j hj
  rw [hu]
  show (t.expenses.set (index - 1).toNat _)[j]? = t.expenses[j]?
  exact List.getElem?_set_ne (fun hh => hj hh.symm)

/-- Witness for C9 at a concrete input. -/
theorem update_expense_note_only_spec_witness :
    (1 : Int) ≤ 1 ∧ (1 : Int) ≤ ((⟨exampleExpenses, .absent⟩ : ExpenseTracker).expenses.length : Int) ∧
    (update_expense ⟨exampleExpenses, .absent⟩ 1 none none (some "  coffee  ") none).2 = true ∧
    (update_expense ⟨exampleExpenses, .absent⟩ 1 none none (some "  coffee  ") none).1.expenses
      = [⟨.finite ⟨10, 0⟩, "2024-01-05", "coffee", "Food"⟩,
         ⟨.finite ⟨5, 0⟩, "2024-01-20", "", "Food"⟩,
         ⟨.finite ⟨7, 0⟩, "2024-02-01", "", "Travel"⟩] ∧
    (update_expense ⟨exampleExpenses, .absent⟩ 1 none none (some "  coffee  ") none).1.expenses[1]?
      = (⟨exampleExpenses, .absent⟩ : ExpenseTracker).expenses[1]? :=
  ⟨by decide, by decide,
    (update_expense_note_only_spec ⟨exampleExpenses, .absent⟩ 1 "  coffee  "
      (by decide) (by decide) (by decide)).1,
    ((update_expense_note_only_spec ⟨exampleExpenses, .absent⟩ 1 "  coffee  "
      (by decide) (by decide) (by decide)).2.1).trans (by decide),
    (update_expense_note_only_spec ⟨exampleExpenses, .absent⟩ 1 "  coffee  "
      (by decide) (by decide) (by decide)).2.2 1 (by decide)⟩

/-- C7: for every store of length `n` and every index in `[1, n]`,
`delete_expense` returns success together with the removed record, and the
resulting list is the old list with the record at that position removed:
records before it keep their positions, records after it shift down by one,
the length drops by one, and the result is persisted. -/
theorem delete_expense_in_range_spec (t : ExpenseTracker) (index : Int)
    (h1 : 1 ≤ index) (h2 : index ≤ (t.expenses.length : Int))
    (hidx : (index - 1).toNat < t.expenses.length) :
    (delete_expense t index).2 = some (t.expenses.get ⟨(index - 1).toNat, hidx⟩) ∧
    (delete_expense t index).1.expenses
      = t.expenses.take (index - 1).toNat ++ t.expenses.drop ((index - 1).toNat + 1) ∧
    (delete_expense t index).1.expenses.length = t.expenses.length - 1 ∧
    (delete_expense t index).1.file = .records ((delete_expense t index).1.expenses) := by
  have hd : delete_expense t index
      = (save_data { t with expenses := t.expenses.eraseIdx (index - 1).toNat },
         some (t.expenses.get ⟨(index - 1).toNat, hidx⟩)) := by
    unfold delete_expense
    rw [dif_pos ⟨h1, h2⟩]
  refine ⟨by rw [hd], ?_, ?_, by rw [hd]; rfl⟩
  · rw [hd]
    exact List.eraseIdx_eq_take_drop_succ t.expenses (index - 1).toNat
  · rw [hd]
    exact List.length_eraseIdx_of_lt hidx

/-- Witness for C7 at a concrete input. -/
theorem delete_expense_in_range_spec_witness :
    (1 : Int) ≤ 2 ∧ (2 : Int) ≤ ((⟨exampleExpenses, .absent⟩ : ExpenseTracker).expenses.length : Int) ∧
    (delete_expense ⟨exampleExpenses, .absent⟩ 2).2
      = some ⟨.finite ⟨5, 0⟩, "2024-01-20", "", "Food"⟩ ∧
    (delete_expense ⟨exampleExpenses, .absent⟩ 2).1.expenses
      = [⟨.finite ⟨10, 0⟩, "2024-01-05", "", "Food"⟩,
         ⟨.finite ⟨7, 0⟩, "2024-02-01", "", "Travel"⟩] ∧
    (delete_expense ⟨exampleExpenses, .absent⟩ 2).1.expenses.length = 2 :=
  ⟨by decide, by decide,
    ((delete_expense_in_range_spec ⟨exampleExpenses, .absent⟩ 2
      (by decide) (by decide) (by decide)).1).trans (by decide),
    ((delete_expense_in_range_spec ⟨exampleExpenses, .absent⟩ 2
      (by decide) (by decide) (by decide)).2.1).trans (by decide),
    ((delete_expense_in_range_spec ⟨exampleExpenses, .absent⟩ 2
      (by decide) (by decide) (by decide)).2.2.1).trans (by decide)⟩

/-- C10: a filter argument supplied as the empty string is treated exactly
like no filter at all: viewing with category filter `""` or date filter `""`
behaves as with `None`, and on a non-empty store the result lists every
record, not only those whose category or date is the empty string. -/
theorem view_expenses_empty_filter_spec (t : ExpenseTracker) (fc fd : Option String) :
    view_expenses t (some "") fd = view_expenses t none fd ∧
    view_expenses t fc (some "") = view_expenses t fc none ∧
    (t.expenses ≠ [] → view_expenses t (some "") (some "") = .listing t.expenses) := by
  refine ⟨rfl, ?_, ?_⟩
  · unfold view_expenses
    cases fc <;> rfl
  · intro h
    have he : t.expenses.isEmpty = false := List.isEmpty_eq_false.mpr h
    have h0 : ("" : String).isEmpty = true := rfl
    unfold view_expenses
    simp [he, h0]

/-- Witness for C10 at a concrete input. -/
theorem view_expenses_empty_filter_spec_witness :
    (⟨exampleExpenses, .absent⟩ : ExpenseTracker).expenses ≠ [] ∧
    view_expenses ⟨exampleExpenses, .absent⟩ (some "") (some "")
      = .listing exampleExpenses :=
  ⟨by decide,
    (view_expenses_empty_filter_spec ⟨exampleExpenses, .absent⟩ (some "") (some "")).2.2
      (by decide)⟩

theorem CodeRecordOk_applyAmount (e : Expense) (x : Option String) (h : CodeRecordOk e) :
    CodeRecordOk (applyAmount e x) := by
  obtain ⟨h1, h2, h3⟩ := h
  refine ⟨?_, ?_, ?_⟩
  · rw [applyAmount_amount]
    cases x with
    | none => exact h1
    | some s =>
      cases hv : validate_amount s with
      | none => simpa [hv] using h1
      | some v => simpa [hv] using validate_amount_le0 s v hv
  · rw [applyAmount_date]; exact h2
  · rw [applyAmount_category]; exact h3

theorem CodeRecordOk_applyDate (e : Expense) (x : Option String) (h : CodeRecordOk e) :
    CodeRecordOk (applyDate e x) := by
  obtain ⟨h1, h2, h3⟩ := h
  refine ⟨?_, ?_, ?_⟩
  · rw [applyDate_amount]; exact h1
  · rw [applyDate_date]
    cases x with
    | none => exact h2
    | some s =>
      cases hv : validate_date s with
      | none => simpa [hv] using h2
      | some v =>
        obtain rfl := validate_date_some_eq _ _ hv
        simp only [hv]
  · rw [applyDate_category]; exact h3

theorem CodeRecordOk_applyNote (e : Expense) (x : Option String) (h : CodeRecordOk e) :
    CodeRecordOk (applyNote e x) := by
  obtain ⟨h1, h2, h3⟩ := h
  exact ⟨by rw [applyNote_amount]; exact h1, by rw [applyNote_date]; exact h2,
    by rw [applyNote_category]; exact h3⟩

theorem CodeRecordOk_applyCategory (e : Expense) (x : Option String) (h : CodeRecordOk e) :
    CodeRecordOk (applyCategory e x) := by
  obtain ⟨h1, h2, h3⟩ := h
  refine ⟨by rw [applyCategory_amount]; exact h1, by rw [applyCategory_date]; exact h2, ?_⟩
  cases x with
  | none => exact h3
  | some s => exact stripOrDefault_ne_empty s

theorem add_preserves_CodeRecordOk (t : ExpenseTracker) (amount date note category : String)
    (h : ∀ e ∈ t.expenses, CodeRecordOk e) :
    ∀ e ∈ (add_expense t amount date note category).1.expenses, CodeRecordOk e := by
  intro e he
  unfold add_expense at he
  cases hva : validate_amount amount with
  | none => rw [hva] at he; exact h e he
  | some va =>
    cases hvd : validate_date date with
    | none => rw [hva, hvd] at he; exact h e he
    | some vd =>
      rw [hva, hvd] at he
      simp only [save_data] at he
      rcases List.mem_append.mp he with he2 | he2
      · exact h e he2
      · have heq : e = ⟨va, vd, pyStrip note, stripOrDefault category⟩ := by simpa using he2
        subst heq
        obtain rfl := validate_date_some_eq _ _ hvd
        exact ⟨validate_amount_le0 _ _ hva, hvd, stripOrDefault_ne_empty _⟩

theorem update_preserves_CodeRecordOk (t : ExpenseTracker) (index : Int)
    (amount date note category : Option String)
    (h : ∀ e ∈ t.expenses, CodeRecordOk e) :
    ∀ e ∈ (update_expense t index amount date note category).1.expenses, CodeRecordOk e := by
  intro e he
  unfold update_expense at he
  by_cases hr : 1 ≤ index ∧ index ≤ (t.expenses.length : Int)
  · rw [dif_pos hr] at he
    simp only [save_data] at he
    rcases List.mem_or_eq_of_mem_set he with he2 | he2
    · exact h e he2
    · subst he2
      exact CodeRecordOk_applyCategory _ _ (CodeRecordOk_applyNote _ _
        (CodeRecordOk_applyDate _ _ (CodeRecordOk_applyAmount _ _
          (h _ (List.get_mem _ _ _)))))
  · rw [dif_neg hr] at he
    exact h e he

theorem delete_preserves_CodeRecordOk (t : ExpenseTracker) (index : Int)
    (h : ∀ e ∈ t.expenses, CodeRecordOk e) :
    ∀ e ∈ (delete_expense t index).1.expenses, CodeRecordOk e := by
  intro e he
  unfold delete_expense at he
  by_cases hr : 1 ≤ index ∧ index ≤ (t.expenses.length : Int)
  · rw [dif_pos hr] at he
    simp only [save_data] at he
    exact h e (List.mem_of_mem_eraseIdx he)
  · rw [dif_neg hr] at he
    exact h e he

/-- C2 counterexample: the claimed invariant quantifies over every state
reachable as a load followed by mutating operations, but `load_data`
performs no validation at all: loading a structurally well-formed file whose
record has a negative amount, a malformed date and an empty category yields
a reachable state that violates all three parts of the invariant. -/
theorem reachable_invariant_counterexample :
    Reachable (load_data badFile) ∧ ¬ SpecInvariant (load_data badFile) :=
  ⟨.load badFile, fun h => by
    have hrec := h ⟨.finite ⟨-5, 0⟩, "nonsense", " ", ""⟩ (by decide)
    exact absurd hrec.1 (by decide)⟩

/-- C2 (amended): in every store state reachable from an empty expense list
by add/update/delete operations, every stored record has an amount passing
the code's positivity check (`not (amount <= 0)` in float comparison —
strictly positive for finite amounts), a date accepted by `validate_date`,
and a non-empty category.  The load itself validates nothing, so states
loaded from an existing well-formed file need not satisfy this (see the
counterexample), and `validate_date` also accepts unpadded month/day forms,
so the dates are not necessarily in strict `YYYY-MM-DD` shape. -/
theorem mutReachable_invariant (t : ExpenseTracker) (h : MutReachable t) :
    ∀ e ∈ t.expenses, CodeRecordOk e := by
  induction h with
  | init file => intro e he; simp at he
  | add t amount date note category _ ih =>
    exact add_preserves_CodeRecordOk t amount date note category ih
  | update t index amount date note category _ ih =>
    exact update_preserves_CodeRecordOk t index amount date note category ih
  | delete t index _ ih =>
    exact delete_preserves_CodeRecordOk t index ih

/-- Witness for the amended C2: a concrete mutation-reachable state and the
invariant instantiated at its single record. -/
theorem mutReachable_invariant_witness :
    MutReachable (add_expense ⟨[], .absent⟩ "10" "2024-01-05" "x" "Food").1 ∧
    CodeRecordOk ⟨.finite ⟨10, 0⟩, "2024-01-05", "x", "Food"⟩ :=
  ⟨.add _ _ _ _ _ (.init _),
    mutReachable_invariant (add_expense ⟨[], .absent⟩ "10" "2024-01-05" "x" "Food").1
      (.add _ _ _ _ _ (.init _)) ⟨.finite ⟨10, 0⟩, "2024-01-05", "x", "Food"⟩ (by decide)⟩

theorem findVal_upsert_self (k : String) (a : PyFloat) (g : List (String × PyFloat)) :
    findVal k (upsert k a g) = some (pyAdd ((findVal k g).getD pyZero) a) := by
  induction g with
  | nil => simp [upsert, findVal]
  | cons p rest ih =>
    by_cases h : p.1 = k
    · simp [upsert, findVal, h]
    · simp [upsert, findVal, h, ih]

theorem findVal_upsert_ne (k k2 : String) (a : PyFloat) (g : List (String × PyFloat))
    (h : k2 ≠ k) : findVal k2 (upsert k a g) = findVal k2 g := by
  have h2 : k ≠ k2 := Ne.symm h
  induction g with
  | nil => simp [upsert, findVal, h2]
  | cons p rest ih =>
    by_cases hp : p.1 = k
    · subst hp
      simp [upsert, findVal, h2]
    · by_cases hp2 : p.1 = k2
      · simp [upsert, findVal, hp, hp2, h]
      · simp [upsert, findVal, hp, hp2, ih]

theorem findVal_eq_none_iff (k : String) (g : List (String × PyFloat)) :
    findVal k g = none ↔ k ∉ g.map Prod.fst := by
  induction g with
  | nil => simp [findVal]
  | cons p rest ih =>
    by_cases h : p.1 = k
    · simp [findVal, h]
    · have h2 : k ≠ p.1 := fun hh => h hh.symm
      simp [findVal, h, h2, ih]

theorem findVal_mem (k : String) (v : PyFloat) (g : List (String × PyFloat))
    (h : findVal k g = some v) : (k, v) ∈ g := by
  induction g with
  | nil => simp [findVal] at h
  | cons p rest ih =>
    obtain ⟨p1, p2⟩ := p
    by_cases hp : p1 = k
    · simp [findVal, hp] at h
      subst hp
      subst h
      exact List.mem_cons_self _ _
    · simp [findVal, hp] at h
      exact List.mem_cons_of_mem _ (ih h)

theorem findVal_of_mem (k : String) (v : PyFloat) (g : List (String × PyFloat))
    (hnd : (g.map Prod.fst).Nodup) (h : (k, v) ∈ g) : findVal k g = some v := by
  induction g with
  | nil => simp at h
  | cons p rest ih =>
    simp only [List.map_cons, List.nodup_cons] at hnd
    rcases List.mem_cons.mp h with h2 | h2
    · rw [← h2]
      simp [findVal]
    · have hp : p.1 ≠ k := by
        intro he
        exact hnd.1 (he ▸ List.mem_map.mpr ⟨(k, v), h2, rfl⟩)
      simp [findVal, hp, ih hnd.2 h2]

theorem mem_keys_upsert (x k : String) (a : PyFloat) (g : List (String × PyFloat)) :
    x ∈ (upsert k a g).map Prod.fst ↔ x ∈ g.map Prod.fst ∨ x = k := by
  induction g with
  | nil => simp [upsert]
  | cons p rest ih =>
    by_cases hp : p.1 = k
    · subst hp
      simp [upsert]
      tauto
    · simp [upsert, hp, ih]
      tauto

theorem nodup_keys_upsert (k : String) (a : PyFloat) (g : List (String × PyFloat))
    (h : (g.map Prod.fst).Nodup) : ((upsert k a g).map Prod.fst).Nodup := by
  induction g with
  | nil => simp [upsert]
  | cons p rest ih =>
    rw [List.map_cons, List.nodup_cons] at h
    by_cases hp : p.1 = k
    · simp only [upsert]
      rw [if_pos hp, List.map_cons, List.nodup_cons]
      exact h
    · simp only [upsert]
      rw [if_neg hp, List.map_cons, List.nodup_cons]
      refine ⟨?_, ih h.2⟩
      rw [mem_keys_upsert]
      rintro (hh | hh)
      · exact h.1 hh
      · exact hp hh

theorem nodup_keys_fold (key : Expense → String) (l : List Expense)
    (g : List (String × PyFloat)) (h : (g.map Prod.fst).Nodup) :
    (((l.foldl (fun acc e => upsert (key e) e.amount acc) g)).map Prod.fst).Nodup := by
  induction l generalizing g with
  | nil => exact h
  | cons e rest ih =>
    simp only [List.foldl_cons]
    exact ih _ (nodup_keys_upsert _ _ _ h)

theorem nodup_keys_groupTotals (key : Expense → String) (l : List Expense) :
    ((groupTotals key l).map Prod.fst).Nodup :=
  nodup_keys_fold key l [] (by simp)

theorem findVal_fold (key : Expense → String) (l : List Expense) (k : String)
    (g : List (String × PyFloat)) :
    findVal k (l.foldl (fun acc e => upsert (key e) e.amount acc) g)
      = if (l.filter (fun e => key e = k)).isEmpty
        then findVal k g
        else some ((l.filter (fun e => key e = k)).foldl (fun acc e => pyAdd acc e.amount)
          ((findVal k g).getD pyZero)) := by
  induction l generalizing g with
  | nil => simp
  | cons e rest ih =>
    simp only [List.foldl_cons]
    rw [ih]
    by_cases hk : key e = k
    · rw [List.filter_cons_of_pos (by simp [hk]), hk]
      by_cases hrest : (rest.filter (fun x => key x = k)).isEmpty
      · rw [if_pos hrest, if_neg (by simp), List.isEmpty_iff.mp hrest, findVal_upsert_self]
        rfl
      · rw [if_neg hrest, if_neg (by simp), findVal_upsert_self]
        rfl
    · rw [List.filter_cons_of_neg (by simp [hk]),
        findVal_upsert_ne (key e) k _ _ (fun hh => hk hh.symm)]

theorem findVal_groupTotals (key : Expense → String) (l : List Expense) (k : String) :
    findVal k (groupTotals key l)
      = if (l.filter (fun e => key e = k)).isEmpty
        then none
        else some ((l.filter (fun e => key e = k)).foldl
          (fun acc e => pyAdd acc e.amount) pyZero) := by
  unfold groupTotals
  rw [findVal_fold]
  rfl

theorem groupSpec_sortPairs_groupTotals (key : Expense → String) (l : List Expense) :
    groupSpec key l (sortPairs (groupTotals key l)) := by
  haveI : IsTotal (String × PyFloat) keyLe := ⟨fun p q => lexLe_total p.1.data q.1.data⟩
  haveI : IsTrans (String × PyFloat) keyLe := ⟨fun _ _ _ h h2 => lexLe_trans _ _ _ h h2⟩
  have hperm : (sortPairs (groupTotals key l)).Perm (groupTotals key l) :=
    List.perm_insertionSort keyLe (groupTotals key l)
  have hnd0 : ((groupTotals key l).map Prod.fst).Nodup := nodup_keys_groupTotals key l
  have hnd : ((sortPairs (groupTotals key l)).map Prod.fst).Nodup :=
    ((hperm.map Prod.fst).nodup_iff).mpr hnd0
  refine ⟨?_, ?_, ?_⟩
  · have hs : List.Pairwise keyLe (sortPairs (groupTotals key l)) :=
      List.sorted_insertionSort keyLe (groupTotals key l)
    have hne : List.Pairwise (fun p q : String × PyFloat => p.1 ≠ q.1)
        (sortPairs (groupTotals key l)) := List.pairwise_map.mp hnd
    exact hs.and hne
  · intro k
    rw [(hperm.map Prod.fst).mem_iff]
    constructor
    · intro hk
      have hne : findVal k (groupTotals key l) ≠ none :=
        fun hh => ((findVal_eq_none_iff k _).mp hh) hk
      rw [findVal_groupTotals] at hne
      by_cases hemp : (l.filter (fun e => key e = k)).isEmpty
      · rw [if_pos hemp] at hne
        exact absurd rfl hne
      · have : l.filter (fun e => key e = k) ≠ [] := fun hh => hemp (by simp [hh])
        obtain ⟨e, he⟩ := List.exists_mem_of_ne_nil _ this
        have := List.mem_filter.mp he
        exact ⟨e, this.1, by simpa using this.2⟩
    · rintro ⟨e, hel, hek⟩
      have hmem : e ∈ l.filter (fun x => key x = k) :=
        List.mem_filter.mpr ⟨hel, by simpa using hek⟩
      have hemp : (l.filter (fun x => key x = k)).isEmpty = false := by
        rcases hf : l.filter (fun x => key x = k) with - | ⟨a, as⟩
        · rw [hf] at hmem; simp at hmem
        · rfl
      have hne : findVal k (groupTotals key l) ≠ none := by
        rw [findVal_groupTotals, hemp]
        simp
      by_contra hk2
      exact hne ((findVal_eq_none_iff k _).mpr hk2)
  · intro k v hm
    have hm0 : (k, v) ∈ groupTotals key l := hperm.mem_iff.mp hm
    have hfv := findVal_of_mem k v _ hnd0 hm0
    rw [findVal_groupTotals] at hfv
    by_cases hemp : (l.filter (fun e => key e = k)).isEmpty
    · rw [if_pos hemp] at hfv
      exact absurd hfv (by simp)
    · rw [if_neg hemp] at hfv
      exact (Option.some_injective _ hfv).symm

/-- C8: `show_summary` returns the no-data indicator exactly on the empty
store; otherwise it returns the grand total (the sum of all amounts), the
per-category totals (amounts summed by exact category string) and the
per-month totals (amounts summed by the first seven characters of the date,
`YYYY-MM`), each table keyed in strictly ascending order and carrying
exactly the keys present in the records; on the specification's three
example records it yields total 22, category totals Food 15 and Travel 7,
and month totals 2024-01 15 and 2024-02 7. -/
theorem show_summary_spec :
    (∀ t : ExpenseTracker, show_summary t = none ↔ t.expenses = []) ∧
    (∀ (t : ExpenseTracker) (S : Summary), show_summary t = some S →
      S.total = t.expenses.foldl (fun acc e => pyAdd acc e.amount) pyZero ∧
      groupSpec (fun e => e.category) t.expenses S.byCategory ∧
      groupSpec monthKey t.expenses S.byMonth) ∧
    show_summary ⟨exampleExpenses, .absent⟩
      = some ⟨.finite ⟨22, 0⟩,
          [("Food", .finite ⟨15, 0⟩), ("Travel", .finite ⟨7, 0⟩)],
          [("2024-01", .finite ⟨15, 0⟩), ("2024-02", .finite ⟨7, 0⟩)]⟩ := by
  refine ⟨?_, ?_, by decide⟩
  · intro t
    unfold show_summary
    by_cases h : t.expenses.isEmpty
    · rw [if_pos h]
      simp [List.isEmpty_iff.mp h]
    · rw [if_neg h]
      simp only [reduceCtorEq, false_iff]
      exact fun hh => h (by simp [hh])
  · intro t S hS
    unfold show_summary at hS
    by_cases h : t.expenses.isEmpty
    · rw [if_pos h] at hS
      exact absurd hS (by simp)
    · rw [if_neg h] at hS
      obtain rfl := Option.some_injective _ hS
      exact ⟨rfl, groupSpec_sortPairs_groupTotals (fun e => e.category) t.expenses,
        groupSpec_sortPairs_groupTotals monthKey t.expenses⟩

/-- Witness for C8: the clauses instantiated at the example store. -/
theorem show_summary_spec_witness :
    show_summary ⟨exampleExpenses, .absent⟩
      = some ⟨.finite ⟨22, 0⟩,
          [("Food", .finite ⟨15, 0⟩), ("Travel", .finite ⟨7, 0⟩)],
          [("2024-01", .finite ⟨15, 0⟩), ("2024-02", .finite ⟨7, 0⟩)]⟩ ∧
    (PyFloat.finite ⟨22, 0⟩)
      = exampleExpenses.foldl (fun acc e => pyAdd acc e.amount) pyZero ∧
    show_summary ⟨[], .corrupt⟩ = none :=
  ⟨show_summary_spec.2.2,
    (show_summary_spec.2.1 ⟨exampleExpenses, .absent⟩
      ⟨.finite ⟨22, 0⟩,
        [("Food", .finite ⟨15, 0⟩), ("Travel", .finite ⟨7, 0⟩)],
        [("2024-01", .finite ⟨15, 0⟩), ("2024-02", .finite ⟨7, 0⟩)]⟩
      show_summary_spec.2.2).1,
    (show_summary_spec.1 ⟨[], .corrupt⟩).mpr rfl⟩

theorem takeDigitsUpTo_append (n : Nat) (l : List Char) :
    (takeDigitsUpTo n l).1 ++ (takeDigitsUpTo n l).2 = l := by
  induction n generalizing l with
  | zero => rfl
  | succ m ih =>
    cases l with
    | nil => rfl
    | cons c rest =>
      by_cases h : c.isDigit
      · simp [takeDigitsUpTo, h, ih rest]
      · simp [takeDigitsUpTo, h]

theorem takeDigitsUpTo_all_digits (n : Nat) (l : List Char) :
    (takeDigitsUpTo n l).1.all Char.isDigit = true := by
  induction n generalizing l with
  | zero => rfl
  | succ m ih =>
    cases l with
    | nil => rfl
    | cons c rest =>
      by_cases h : c.isDigit
      · simp [takeDigitsUpTo, h, ih rest]
      · simp [takeDigitsUpTo, h]

theorem takeDigitsUpTo_length_le (n : Nat) (l : List Char) :
    (takeDigitsUpTo n l).1.length ≤ n := by
  induction n generalizing l with
  | zero => exact Nat.le_refl 0
  | succ m ih =>
    cases l with
    | nil => simp [takeDigitsUpTo]
    | cons c rest =>
      by_cases h : c.isDigit
      · simp only [takeDigitsUpTo, h, if_pos, List.length_cons]
        exact Nat.succ_le_succ (ih rest)
      · simp [takeDigitsUpTo, h]

theorem takeDigitsUpTo_exact (t r : List Char) (n : Nat)
    (hd : t.all Char.isDigit = true) (hlen : t.length ≤ n)
    (hstop : t.length = n ∨ ∀ c, r.head? = some c → c.isDigit = false) :
    takeDigitsUpTo n (t ++ r) = (t, r) := by
  induction t generalizing n with
  | nil =>
    cases n with
    | zero => rfl
    | succ m =>
      rcases hstop with hstop | hstop
      · simp at hstop
      · cases r with
        | nil => rfl
        | cons c r2 =>
          have := hstop c rfl
          simp [takeDigitsUpTo, this]
  | cons a t2 ih =>
    simp only [List.all_cons, Bool.and_eq_true] at hd
    cases n with
    | zero => simp at hlen
    | succ m =>
      have hlen2 : t2.length ≤ m := by
        simp only [List.length_cons] at hlen
        omega
      have hstop2 : t2.length = m ∨ ∀ c, r.head? = some c → c.isDigit = false := by
        rcases hstop with hstop | hstop
        · left
          simp only [List.length_cons] at hstop
          omega
        · right
          exact hstop
      have hstep : takeDigitsUpTo m (t2 ++ r) = (t2, r) := ih m hd.2 hlen2 hstop2
      simp [takeDigitsUpTo, hd.1, hstep]

theorem scanYMD_some (l : List Char) (y m d : Nat) (h : scanYMD l = some (y, m, d)) :
    ∃ ys ms ds : List Char,
      l = ys ++ '-' :: (ms ++ '-' :: ds) ∧
      ys.length = 4 ∧ ys.all Char.isDigit = true ∧
      1 ≤ ms.length ∧ ms.length ≤ 2 ∧ ms.all Char.isDigit = true ∧
      1 ≤ ds.length ∧ ds.length ≤ 2 ∧ ds.all Char.isDigit = true ∧
      y = digitsVal ys ∧ m = digitsVal ms ∧ d = digitsVal ds := by
  unfold scanYMD at h
  split at h
  case isFalse => exact absurd h (by simp)
  case isTrue hlen =>
    split at h
    case h_2 => exact absurd h (by simp)
    case h_1 r2 hr1 =>
      split at h
      case isFalse => exact absurd h (by simp)
      case isTrue hms =>
        split at h
        case h_2 => exact absurd h (by simp)
        case h_1 r4 hr3 =>
          split at h
          case isFalse => exact absurd h (by simp)
          case isTrue hds =>
            injection h with h2
            obtain ⟨hy, hm, hd⟩ : y = digitsVal (takeDigitsUpTo 4 l).1 ∧
                m = digitsVal (takeDigitsUpTo 2 r2).1 ∧
                d = digitsVal (takeDigitsUpTo 2 r4).1 := by
              have := h2.symm
              exact ⟨congrArg Prod.fst this, congrArg (fun p => p.2.1) this,
                congrArg (fun p => p.2.2) this⟩
            refine ⟨(takeDigitsUpTo 4 l).1, (takeDigitsUpTo 2 r2).1, (takeDigitsUpTo 2 r4).1,
              ?_, hlen, takeDigitsUpTo_all_digits 4 l, ?_, takeDigitsUpTo_length_le 2 r2,
              takeDigitsUpTo_all_digits 2 r2, ?_, takeDigitsUpTo_length_le 2 r4,
              takeDigitsUpTo_all_digits 2 r4, hy, hm, hd⟩
            · have e1 : (takeDigitsUpTo 4 l).1 ++ '-' :: r2 = l := by
                rw [← hr1]
                exact takeDigitsUpTo_append 4 l
              have e2 : (takeDigitsUpTo 2 r2).1 ++ '-' :: r4 = r2 := by
                rw [← hr3]
                exact takeDigitsUpTo_append 2 r2
              have e3 : (takeDigitsUpTo 2 r4).1 ++ [] = r4 := by
                rw [← hds.2]
                exact takeDigitsUpTo_append 2 r4
              rw [List.append_nil] at e3
              have hc : r2 = (takeDigitsUpTo 2 r2).1 ++ '-' :: (takeDigitsUpTo 2 r4).1 :=
                e2.symm.trans
                  (congrArg (fun x => (takeDigitsUpTo 2 r2).1 ++ '-' :: x) e3.symm)
              exact e1.symm.trans
                (congrArg (fun x => (takeDigitsUpTo 4 l).1 ++ '-' :: x) hc)
            · have := hms
              rcases hq : (takeDigitsUpTo 2 r2).1 with - | ⟨x, xs⟩
              · exact absurd hq this
              · simp
            · have := hds.1
              rcases hq : (takeDigitsUpTo 2 r4).1 with - | ⟨x, xs⟩
              · exact absurd hq this
              · simp

theorem scanYMD_of_parts (ys ms ds : List Char)
    (hy4 : ys.length = 4) (hyd : ys.all Char.isDigit = true)
    (hm1 : 1 ≤ ms.length) (hm2 : ms.length ≤ 2) (hmd : ms.all Char.isDigit = true)
    (hd1 : 1 ≤ ds.length) (hd2 : ds.length ≤ 2) (hdd : ds.all Char.isDigit = true) :
    scanYMD (ys ++ '-' :: (ms ++ '-' :: ds))
      = some (digitsVal ys, digitsVal ms, digitsVal ds) := by
  have hmne : ms ≠ [] := by
    intro hh
    rw [hh] at hm1
    simp at hm1
  have hdne : ds ≠ [] := by
    intro hh
    rw [hh] at hd1
    simp at hd1
  have h4 : takeDigitsUpTo 4 (ys ++ '-' :: (ms ++ '-' :: ds)) = (ys, '-' :: (ms ++ '-' :: ds)) :=
    takeDigitsUpTo_exact ys _ 4 hyd (le_of_eq hy4) (Or.inl hy4)
  have hm : takeDigitsUpTo 2 (ms ++ '-' :: ds) = (ms, '-' :: ds) :=
    takeDigitsUpTo_exact ms _ 2 hmd hm2 (Or.inr (fun c hc => by
      simp at hc
      rw [← hc]
      rfl))
  have hds2 : takeDigitsUpTo 2 ds = (ds, []) := by
    have := takeDigitsUpTo_exact ds [] 2 hdd hd2 (Or.inr (by simp))
    simpa using this
  unfold scanYMD
  rw [h4]
  simp [hy4, hm, hds2, hmne, hdne]

/-- C3 counterexample: `validate_date` does not accept exactly the strict
`YYYY-MM-DD` calendar dates — `strptime`'s `%m` and `%d` also match single
digits, so the non-strict string `2024-1-1` is accepted. -/
theorem validate_date_strict_counterexample :
    validate_date "2024-1-1" = some "2024-1-1" ∧ specStrictDate "2024-1-1" = false := by
  decide

/-- C3 (amended): `validate_date(raw)` succeeds, returning the input string,
exactly when the input is a valid proleptic Gregorian calendar date written
as a 4-digit year, a dash, a 1- or 2-digit month, and a dash, and a 1- or
2-digit day (so zero-padding of month and day is NOT required); every other
string — including non-existent dates such as 2024-02-30 and 2023-13-01 —
is rejected, and a failed date validation makes `add_expense` return
failure without change. -/
theorem validate_date_spec :
    (∀ s : String, validate_date s = some s ↔ looseYMD s) ∧
    (∀ s : String, ¬ looseYMD s → validate_date s = none) ∧
    (∀ (t : ExpenseTracker) (amount date note category : String),
      validate_date date = none → add_expense t amount date note category = (t, false)) := by
  have main : ∀ s : String, validate_date s = some s ↔ looseYMD s := by
    intro s
    constructor
    · intro h
      unfold validate_date at h
      cases hs : scanYMD s.data with
      | none => rw [hs] at h; exact absurd h (by simp)
      | some p =>
        obtain ⟨y, m, d⟩ := p
        rw [hs] at h
        by_cases hok : dateOk y m d = true
        case neg => simp [hok] at h
        obtain ⟨ys, ms, ds, hsplit, h4, hyd, hm1, hm2, hmd, hd1, hd2, hdd, hy, hm, hd⟩ :=
          scanYMD_some _ _ _ _ hs
        refine ⟨ys, ms, ds, hsplit, h4, hyd, hm1, hm2, hmd, hd1, hd2, hdd, ?_⟩
        rw [← hy, ← hm, ← hd]
        exact hok
    · rintro ⟨ys, ms, ds, hsplit, h4, hyd, hm1, hm2, hmd, hd1, hd2, hdd, hok⟩
      unfold validate_date
      have hscan : scanYMD s.data = some (digitsVal ys, digitsVal ms, digitsVal ds) := by
        rw [hsplit]
        exact scanYMD_of_parts ys ms ds h4 hyd hm1 hm2 hmd hd1 hd2 hdd
      rw [hscan]
      show (if dateOk (digitsVal ys) (digitsVal ms) (digitsVal ds) = true
        then some s else none) = some s
      rw [if_pos hok]
  refine ⟨main, ?_, ?_⟩
  · intro s hn
    cases hv : validate_date s with
    | none => rfl
    | some v =>
      obtain rfl := validate_date_some_eq _ _ hv
      exact absurd ((main _).mp hv) hn
  · intro t amount date note category hd
    unfold add_expense
    rw [hd]
    cases validate_amount amount <;> rfl

/-- Witness for the amended C3: acceptance of a strict leap date and of an
unpadded date, derived through the characterization. -/
theorem validate_date_spec_witness :
    validate_date "2024-02-29" = some "2024-02-29" ∧
    validate_date "2024-1-1" = some "2024-1-1" :=
  ⟨(validate_date_spec.1 "2024-02-29").mpr
      ⟨['2', '0', '2', '4'], ['0', '2'], ['2', '9'], by decide, by decide, by decide,
        by decide, by decide, by decide, by decide, by decide, by decide, by decide⟩,
    (validate_date_spec.1 "2024-1-1").mpr
      ⟨['2', '0', '2', '4'], ['1'], ['1'], by decide, by decide, by decide,
        by decide, by decide, by decide, by decide, by decide, by decide, by decide⟩⟩

end ExpenseTrackerModel
